import Mathlib

/-!
Verification of the segmentation tutorial notebook
(`lectures/4_segmentation.ipynb`).

The notebook manipulates numpy arrays: images (grids of pixel values) and
label maps (grids of integer region identifiers).  We embed a 2-D numpy
array as a structure carrying its two dimensions and a total valuation
function; only values at in-bounds indices are meaningful.  Pixel values
are modelled as exact rationals (the notebook's float arithmetic), and a
dtype conversion (numpy's cast on assignment into a preallocated array) is
modelled as an explicit `cast : ℚ → ℚ` parameter.  Colour images are
handled channelwise by the notebook (`np.mean(..., axis=0)`), so a single
rational channel value per pixel suffices.

Calls into the external libraries (scikit-image, scipy.ndimage) are not
code of this repository; where a claim depends on them they are modelled
from the spec's description of their interface, each such definition
marked `Modelled from the spec:` in its doc comment.  Everything the
notebook itself implements (the `mean_color` function, the threshold mask,
the peak-coordinate scatter, the region-filtering loop, the cell
sequencing) is translated directly from the notebook source.
-/

/-- A 2-D numpy array: `rows × cols` grid with a total valuation function;
only indices `i < rows`, `j < cols` are meaningful. -/
structure Grid (α : Type) where
  rows : ℕ
  cols : ℕ
  val : ℕ → ℕ → α

/-- The Finset of in-bounds index pairs of a grid. -/
def Grid.pixels {α : Type} (g : Grid α) : Finset (ℕ × ℕ) :=
  Finset.range g.rows ×ˢ Finset.range g.cols

/-- `np.zeros_like(image)`: a fresh array of the image's shape (and dtype)
filled with zeros. -/
def zerosLike (image : Grid ℚ) : Grid ℚ :=
  ⟨image.rows, image.cols, fun _ _ => 0⟩

/-- The row-major list of all label values of a label map
(the values `np.unique` ranges over). -/
def pixelValues (labels : Grid ℤ) : List ℤ :=
  (List.range labels.rows).flatMap fun i =>
    (List.range labels.cols).map fun j => labels.val i j

/-- `np.unique(labels)`: the distinct label values, sorted ascending. -/
def uniqueLabels (labels : Grid ℤ) : List ℤ :=
  List.insertionSort (· ≤ ·) (pixelValues labels).dedup

/-- `np.nonzero(labels == label)`: the in-bounds pixels carrying a given
label. -/
def labelPixels (labels : Grid ℤ) (lbl : ℤ) : Finset (ℕ × ℕ) :=
  labels.pixels.filter fun p => labels.val p.1 p.2 = lbl

/-- `np.mean(image[indices], axis=0)` for `indices = np.nonzero(labels ==
lbl)`: the exact mean of the image values over the pixels carrying `lbl`. -/
def labelMean (image : Grid ℚ) (labels : Grid ℤ) (lbl : ℤ) : ℚ :=
  (∑ p ∈ labelPixels labels lbl, image.val p.1 p.2) /
    (labelPixels labels lbl).card

/-- One iteration of the `mean_color` loop body:
`out[indices] = np.mean(image[indices], axis=0)`, the mean being cast to
the output array's dtype on assignment. -/
def assignMean (cast : ℚ → ℚ) (image : Grid ℚ) (labels : Grid ℤ)
    (out : Grid ℚ) (lbl : ℤ) : Grid ℚ :=
  ⟨out.rows, out.cols, fun i j =>
    if (i, j) ∈ labelPixels labels lbl then cast (labelMean image labels lbl)
    else out.val i j⟩

/-- The notebook's `mean_color(image, labels)`:
`out = np.zeros_like(image)`, then for each `label in np.unique(labels)`
assign the per-label mean to `out` at that label's pixels.  The source
mutates only the fresh array `out`, never `image` or `labels`; the pure
embedding reflects that. -/
def mean_color (cast : ℚ → ℚ) (image : Grid ℚ) (labels : Grid ℤ) : Grid ℚ :=
  (uniqueLabels labels).foldl (assignMean cast image labels) (zerosLike image)

/-! ### Library-call models (external code, modelled from the spec) -/

/-- The parameters of a `seg.slic` call as used by the notebook:
`n_segments`, `compactness`, `sigma`, `enforce_connectivity`. -/
structure SlicParams where
  n_segments : ℕ
  compactness : ℚ
  sigma : ℚ
  enforce_connectivity : Bool
deriving DecidableEq

/-- Modelled from the spec: `seg.slic` (external scikit-image code) returns
"a label map: a grid of integer region identifiers, one per pixel" over the
same grid as the input image.  The clustering itself is opaque; it is
abstracted as a labelling function `assign`, deterministic in the image and
the call's parameters. -/
def slicModel (assign : SlicParams → Grid ℚ → ℕ → ℕ → ℤ)
    (params : SlicParams) (image : Grid ℚ) : Grid ℤ :=
  ⟨image.rows, image.cols, assign params image⟩

/-- Modelled from the spec: `watershed` (external scikit-image code) "floods
an intensity surface from seed points", producing one region identifier per
pixel of the flooded image.  The flooding itself is opaque; it is abstracted
as a labelling function `flood` of the landscape and the seeds. -/
def watershedModel (flood : Grid ℚ → Grid ℤ → ℕ → ℕ → ℤ)
    (landscape : Grid ℚ) (seeds : Grid ℤ) : Grid ℤ :=
  ⟨landscape.rows, landscape.cols, flood landscape seeds⟩

/-- One re-run of the notebook's clustering cell
(`labels = seg.slic(image, ...)`): the new binding of the notebook-global
`labels` variable.  The cell reads only `image` and the call's parameters;
the previous value of `labels` is overwritten, not read. -/
def slicCell (assign : SlicParams → Grid ℚ → ℕ → ℕ → ℤ)
    (params : SlicParams) (image : Grid ℚ) (_prevLabels : Grid ℤ) : Grid ℤ :=
  slicModel assign params image

/-! ### The watershed section: threshold, distance transform, peaks -/

/-- The notebook's `non_edges = (edges < threshold)`: elementwise boolean
mask, true where the Sobel response is below the threshold. -/
def non_edges (edges : Grid ℚ) (threshold : ℚ) : Grid Bool :=
  ⟨edges.rows, edges.cols, fun i j => decide (edges.val i j < threshold)⟩

/-- Squared Euclidean distance between two index pairs. -/
def sqdist (p q : ℕ × ℕ) : ℕ :=
  (((p.1 : ℤ) - q.1) ^ 2 + ((p.2 : ℤ) - q.2) ^ 2).toNat

/-- The in-bounds pixels whose Sobel response is at least the threshold:
the boundary pixels in the sense of the spec. -/
def boundaryPixels (edges : Grid ℚ) (threshold : ℚ) : Finset (ℕ × ℕ) :=
  edges.pixels.filter fun p => threshold ≤ edges.val p.1 p.2

/-- Modelled from the spec: `ndi.distance_transform_edt` (external scipy
code) assigns each pixel the "per-pixel distance to the nearest marked
boundary pixel", i.e. the Euclidean distance to the nearest false (zero)
pixel of the mask, 0 at false pixels themselves.  To stay in exact
arithmetic we record the minimised squared distance, in `WithTop ℕ` (`⊤`
when the mask has no false pixel at all). -/
def edtSq (mask : Grid Bool) (i j : ℕ) : WithTop ℕ :=
  (mask.pixels.filter fun p => mask.val p.1 p.2 = false).inf
    fun p => ((sqdist (i, j) p : ℕ) : WithTop ℕ)

/-- The notebook's scatter
`peaks_image = np.zeros(coins.shape, np.bool)` followed by
`peaks_image[tuple(np.transpose(peaks))] = True`: a boolean grid of the
coins shape, true exactly at the coordinate pairs listed in `peaks`. -/
def peaksImage (rows cols : ℕ) (peaks : List (ℕ × ℕ)) : Grid Bool :=
  ⟨rows, cols, fun i j => decide ((i, j) ∈ peaks)⟩

/-- Modelled from the spec: `ndi.label` (external scipy code) labels the
connected components of a boolean mask, giving every true pixel a positive
component identifier and every false pixel the background label 0.  Only
this support property is needed here, so the component structure is left
unconstrained. -/
def ndiLabelSpec (mask : Grid Bool) (seeds : Grid ℤ) : Prop :=
  seeds.rows = mask.rows ∧ seeds.cols = mask.cols ∧
    ∀ i, i < mask.rows → ∀ j, j < mask.cols →
      (seeds.val i j ≠ 0 ↔ mask.val i j = true)

instance (mask : Grid Bool) (seeds : Grid ℤ) :
    Decidable (ndiLabelSpec mask seeds) := by
  unfold ndiLabelSpec; infer_instance

/-! ### The region-filtering step -/

/-- One region descriptor as returned by `regionprops`: its label and its
eccentricity (the only fields the notebook reads). -/
structure RegionDesc where
  label : ℤ
  eccentricity : ℚ
deriving DecidableEq

/-- `ws_updated[ws_updated == lbl] = 0`: zero out every pixel currently
carrying the given label. -/
def zeroOutLabel (g : Grid ℤ) (lbl : ℤ) : Grid ℤ :=
  ⟨g.rows, g.cols, fun i j => if g.val i j = lbl then 0 else g.val i j⟩

/-- The notebook's region-filtering loop:
`ws_updated = ws.copy()`, then for each region with
`region.eccentricity > 0.6` set `ws_updated[ws_updated == region.label] = 0`.
The loop mutates only the copy; the original `ws` is never written, which
the pure embedding reflects. -/
def ws_updated (regions : List RegionDesc) (ws : Grid ℤ) : Grid ℤ :=
  regions.foldl
    (fun acc region =>
      if 3 / 5 < region.eccentricity then zeroOutLabel acc region.label
      else acc)
    ws

/-! ### Failure propagation through the cell sequence -/

/-- The path the contrast section reads (`url = '../images/spice_1.jpg'`). -/
def spiceUrl : String := "../images/spice_1.jpg"

/-- Modelled from the spec: `io.imread(url)` reads an image file from a
local path; on a bad file path the library raises an error.  The file
system is abstracted as a partial map from paths to images, failure as
`Except.error`. -/
def imreadModel (fs : String → Option (Grid ℚ)) (path : String) :
    Except String (Grid ℚ) :=
  match fs path with
  | some img => Except.ok img
  | none => Except.error ("cannot read " ++ path)

/-- Modelled from the spec: a library call with a parameter out of range
raises an error (`seg.slic` cannot produce zero segments).  In range it is
the opaque clustering of `slicModel`. -/
def slicChecked (assign : SlicParams → Grid ℚ → ℕ → ℕ → ℤ)
    (params : SlicParams) (image : Grid ℚ) : Except String (Grid ℤ) :=
  if params.n_segments = 0 then Except.error "n_segments out of range"
  else Except.ok (slicModel assign params image)

/-- The contrast section of the notebook as a sequence of fallible steps:
read the image, cluster it, visualise the labels with `mean_color`.  The
notebook contains no handler: each step's error is propagated by the
sequencing itself (a raised exception aborts the remaining cells). -/
def contrastPipeline (assign : SlicParams → Grid ℚ → ℕ → ℕ → ℤ)
    (fs : String → Option (Grid ℚ)) (params : SlicParams) :
    Except String (Grid ℚ) := do
  let image ← imreadModel fs spiceUrl
  let labels ← slicChecked assign params image
  pure (mean_color id image labels)

/-! ### The notebook's external interactions -/

/-- The kinds of external interaction a notebook step could perform. -/
inductive Effect where
  | readFile (path : String)
  | plotInline
  | printInline
  | writeFile (path : String)
  | networkOpen (url : String)
  | cliInvoke (cmd : String)
deriving DecidableEq

/-- The external interactions of the notebook's code cells, in cell order:
`io.imread` and `data.coins()` read image files from a local path, the
`skdemo.imshow_all`/`plt` calls render figures inline, `print` renders text
inline, and the final `%load_style` magic reads the stylesheet
`../themes/tutorial.css` from a local path. -/
def notebookTrace : List Effect :=
  [Effect.readFile "../images/spice_1.jpg",  -- cell: image = io.imread(url)
   Effect.plotInline,                        -- cell: imshow_all(image, labels/max)
   Effect.printInline,                       -- cell: print(labels)
   Effect.plotInline,                        -- cell: imshow_all(image, mean_color(...))
   Effect.plotInline,                        -- cell: slic re-run, enforce_connectivity
   Effect.plotInline,                        -- cell: slic re-run, sigma=2
   Effect.plotInline,                        -- cell: slic re-run, n_segments=24
   Effect.plotInline,                        -- cell: slic re-run, compactness=40
   Effect.readFile "skimage/data/coins.png", -- cell: coins = data.coins()
   Effect.plotInline,                        -- cell: plt.imshow(edges)
   Effect.printInline,                       -- cell: print Seeds / positions (1-D demo)
   Effect.plotInline,                        -- cell: 1-D watershed plot
   Effect.plotInline,                        -- cell: plt.imshow(distance_from_edge)
   Effect.printInline,                       -- cell: print peaks.shape
   Effect.plotInline,                        -- cell: plt.imshow(edges) + peak overlay
   Effect.plotInline,                        -- cell: label2rgb(ws, coins)
   Effect.plotInline,                        -- cell: label2rgb(ws_updated, coins)
   Effect.readFile "../themes/tutorial.css"] -- cell: %load_style

/-- Whether a path names an image file, by extension (suffix check over
the character list). -/
def isImagePath (p : String) : Bool :=
  decide (p.data.reverse.take 4 = ".jpg".data.reverse) ||
    decide (p.data.reverse.take 4 = ".png".data.reverse)

/-- The effects the claim "only reads image files and renders plots inline"
allows. -/
def allowedByClaim : Effect → Bool
  | Effect.readFile p => isImagePath p
  | Effect.plotInline => true
  | _ => false

/-- The effects the notebook actually confines itself to: local file reads
and inline rendering (figures or printed text). -/
def localOrInline : Effect → Bool
  | Effect.readFile _ => true
  | Effect.plotInline => true
  | Effect.printInline => true
  | _ => false

/-! ### Concrete arrays for evaluating the development -/

/-- A concrete 2×2 image: top row 1, 3; bottom row 4, 4. -/
def cImg : Grid ℚ :=
  ⟨2, 2, fun i j => if i = 0 then (if j = 0 then 1 else 3) else 4⟩

/-- A concrete 2×2 label map: top row label 5, bottom row label 7. -/
def cLab : Grid ℤ := ⟨2, 2, fun i _ => if i = 0 then 5 else 7⟩

/-- A concrete 1×2 watershed label map with regions 1 and 2. -/
def cWs : Grid ℤ := ⟨1, 2, fun _ j => if j = 0 then 1 else 2⟩

/-- Concrete region descriptors: region 1 eccentric (0.7), region 2 round
(0.5). -/
def cRegions : List RegionDesc := [⟨1, 7 / 10⟩, ⟨2, 1 / 2⟩]

/-- A concrete 2×2 Sobel response with a single above-threshold pixel at
(0,0). -/
def cEdges : Grid ℚ := ⟨2, 2, fun i j => if i = 0 ∧ j = 0 then 1 / 2 else 0⟩

/-- A concrete 2×2 seed map: one seed, labelled 1, at (0,1). -/
def cSeeds : Grid ℤ := ⟨2, 2, fun i j => if i = 0 ∧ j = 1 then 1 else 0⟩

/-- A trivial clustering function for instantiating the opaque `assign`. -/
def cAssign : SlicParams → Grid ℚ → ℕ → ℕ → ℤ := fun _ _ _ _ => 0

/-- The parameters of the notebook's first `seg.slic` call
(`n_segments=18, compactness=10`). -/
def cParams : SlicParams := ⟨18, 10, 0, false⟩

/-! ### Helper lemmas about the `mean_color` fold -/

theorem foldl_assignMean_rows (cast : ℚ → ℚ) (image : Grid ℚ)
    (labels : Grid ℤ) (L : List ℤ) (out : Grid ℚ) :
    (L.foldl (assignMean cast image labels) out).rows = out.rows := by
  induction L generalizing out with
  | nil => rfl
  | cons l L ih => simpa using ih (assignMean cast image labels out l)

theorem foldl_assignMean_cols (cast : ℚ → ℚ) (image : Grid ℚ)
    (labels : Grid ℤ) (L : List ℤ) (out : Grid ℚ) :
    (L.foldl (assignMean cast image labels) out).cols = out.cols := by
  induction L generalizing out with
  | nil => rfl
  | cons l L ih => simpa using ih (assignMean cast image labels out l)

/-- Value of the `mean_color` fold at an in-bounds pixel: the pixel ends up
holding the cast mean of its own label as soon as that label occurs in the
processed list, and the initial value otherwise. -/
theorem foldl_assignMean_val (cast : ℚ → ℚ) (image : Grid ℚ)
    (labels : Grid ℤ) (L : List ℤ) (out : Grid ℚ) (i j : ℕ)
    (hin : (i, j) ∈ labels.pixels) :
    (L.foldl (assignMean cast image labels) out).val i j =
      if labels.val i j ∈ L then cast (labelMean image labels (labels.val i j))
      else out.val i j := by
  induction L generalizing out with
  | nil => simp
  | cons l L ih =>
      rw [List.foldl_cons, ih (assignMean cast image labels out l)]
      by_cases hL : labels.val i j ∈ L
      · simp [hL]
      · by_cases hl : labels.val i j = l
        · simp [hL, hl, assignMean, labelPixels, hin]
        · have : labels.val i j ∈ l :: L ↔ False := by simp [hl, hL]
          simp only [this, if_false, hL, if_false]
          simp [assignMean, labelPixels, hin, hl]

/-- Every label carried by an in-bounds pixel occurs in `uniqueLabels`. -/
theorem mem_uniqueLabels (labels : Grid ℤ) (i j : ℕ)
    (hi : i < labels.rows) (hj : j < labels.cols) :
    labels.val i j ∈ uniqueLabels labels := by
  unfold uniqueLabels
  rw [List.mem_insertionSort, List.mem_dedup]
  unfold pixelValues
  rw [List.mem_flatMap]
  exact ⟨i, by simpa using hi, List.mem_map.2 ⟨j, by simpa using hj, rfl⟩⟩

/-! ### Helper lemmas about the region-filtering fold -/

theorem ws_updated_cons (r : RegionDesc) (L : List RegionDesc) (ws : Grid ℤ) :
    ws_updated (r :: L) ws =
      ws_updated L
        (if 3 / 5 < r.eccentricity then zeroOutLabel ws r.label else ws) :=
  rfl

/-- A pixel already at the background label stays there: later iterations
only zero out pixels carrying a (nonzero) region label. -/
theorem ws_updated_zero (i j : ℕ) :
    ∀ (L : List RegionDesc) (acc : Grid ℤ), (∀ r ∈ L, r.label ≠ 0) →
      acc.val i j = 0 → (ws_updated L acc).val i j = 0 := by
  intro L
  induction L with
  | nil => intro acc _ hz; exact hz
  | cons r L ih =>
      intro acc h0 hz
      rw [ws_updated_cons]
      refine ih _ (fun s hs => h0 s (List.mem_cons_of_mem _ hs)) ?_
      by_cases h : 3 / 5 < r.eccentricity
      · simp [if_pos h, zeroOutLabel, hz]
      · simp [if_neg h, hz]

/-- A pixel whose current label never triggers the filter keeps its value
through the whole loop. -/
theorem ws_updated_keep (i j : ℕ) :
    ∀ (L : List RegionDesc) (acc : Grid ℤ),
      (∀ r ∈ L, r.label = acc.val i j → r.eccentricity ≤ 3 / 5) →
      (ws_updated L acc).val i j = acc.val i j := by
  intro L
  induction L with
  | nil => intro acc _; rfl
  | cons r L ih =>
      intro acc hkeep
      rw [ws_updated_cons]
      by_cases h : 3 / 5 < r.eccentricity
      · rw [if_pos h]
        have hne : acc.val i j ≠ r.label := fun he =>
          absurd (hkeep r (List.mem_cons_self r L) he.symm) (not_le.2 h)
        have hval : (zeroOutLabel acc r.label).val i j = acc.val i j := by
          simp [zeroOutLabel, hne]
        rw [ih (zeroOutLabel acc r.label)
          (fun s hs he => hkeep s (List.mem_cons_of_mem _ hs) (by rw [he, hval]))]
        exact hval
      · rw [if_neg h]
        exact ih acc fun s hs he => hkeep s (List.mem_cons_of_mem _ hs) he

/-- A pixel whose label belongs to a region caught by the filter ends at
the background label. -/
theorem ws_updated_kill (r0 : RegionDesc) (i j : ℕ)
    (hecc : 3 / 5 < r0.eccentricity) :
    ∀ (L : List RegionDesc) (acc : Grid ℤ), (∀ r ∈ L, r.label ≠ 0) →
      r0 ∈ L → acc.val i j = r0.label → (ws_updated L acc).val i j = 0 := by
  intro L
  induction L with
  | nil => intro acc _ h; simp at h
  | cons r L ih =>
      intro acc h0 hr0 hlab
      rw [ws_updated_cons]
      by_cases hzero : 3 / 5 < r.eccentricity ∧ acc.val i j = r.label
      · rw [if_pos hzero.1]
        refine ws_updated_zero i j L _
          (fun s hs => h0 s (List.mem_cons_of_mem _ hs)) ?_
        simp [zeroOutLabel, hzero.2]
      · rcases List.mem_cons.1 hr0 with he | hr0'
        · exact absurd ⟨he ▸ hecc, he ▸ hlab⟩ hzero
        · have hval :
              (if 3 / 5 < r.eccentricity then zeroOutLabel acc r.label
                else acc).val i j = acc.val i j := by
            by_cases h : 3 / 5 < r.eccentricity
            · have hne : acc.val i j ≠ r.label := fun he' => hzero ⟨h, he'⟩
              simp [if_pos h, zeroOutLabel, hne]
            · simp [if_neg h]
          exact ih _ (fun s hs => h0 s (List.mem_cons_of_mem _ hs)) hr0'
            (hval.trans hlab)

/-! ### Claim theorems -/

/-- C2: for an image array and a label array of the same grid shape,
`mean_color(image, labels)` returns an array of the image's shape (and, via
`cast`, its dtype) whose value at every in-bounds pixel is the mean of the
image values over all pixels carrying that pixel's label, cast to the
image's dtype.  The source writes only the freshly allocated `out`; in the
pure embedding the inputs are by construction unchanged. -/
theorem mean_color_spec (cast : ℚ → ℚ) (image : Grid ℚ) (labels : Grid ℤ)
    (hr : labels.rows = image.rows) (hc : labels.cols = image.cols)
    (i j : ℕ) (hi : i < image.rows) (hj : j < image.cols) :
    (mean_color cast image labels).rows = image.rows ∧
    (mean_color cast image labels).cols = image.cols ∧
    (mean_color cast image labels).val i j =
      cast (labelMean image labels (labels.val i j)) := by
  refine ⟨foldl_assignMean_rows _ _ _ _ _, foldl_assignMean_cols _ _ _ _ _, ?_⟩
  have hin : (i, j) ∈ labels.pixels := by
    simp [Grid.pixels, Finset.mem_product, hr, hc, hi, hj]
  rw [mean_color, foldl_assignMean_val _ _ _ _ _ _ _ hin,
    if_pos (mem_uniqueLabels labels i j (hr.symm ▸ hi) (hc.symm ▸ hj))]

theorem mean_color_spec_witness :
    (mean_color id cImg cLab).rows = cImg.rows ∧
    (mean_color id cImg cLab).cols = cImg.cols ∧
    (mean_color id cImg cLab).val 0 1 =
      id (labelMean cImg cLab (cLab.val 0 1)) :=
  mean_color_spec id cImg cLab rfl rfl 0 1 (by decide) (by decide)

/-- C3: every label map and derived image the notebook produces — the SLIC
clustering output, the watershed flooding output, and the mean-colour
visualisation — has the same grid dimensions as the source image it was
computed from. -/
theorem outputs_same_dims (assign : SlicParams → Grid ℚ → ℕ → ℕ → ℤ)
    (params : SlicParams) (image : Grid ℚ)
    (flood : Grid ℚ → Grid ℤ → ℕ → ℕ → ℤ) (landscape : Grid ℚ)
    (seeds : Grid ℤ) (cast : ℚ → ℚ) (img2 : Grid ℚ) (labels2 : Grid ℤ) :
    (slicModel assign params image).rows = image.rows ∧
    (slicModel assign params image).cols = image.cols ∧
    (watershedModel flood landscape seeds).rows = landscape.rows ∧
    (watershedModel flood landscape seeds).cols = landscape.cols ∧
    (mean_color cast img2 labels2).rows = img2.rows ∧
    (mean_color cast img2 labels2).cols = img2.cols :=
  ⟨rfl, rfl, rfl, rfl, foldl_assignMean_rows _ _ _ _ _,
    foldl_assignMean_cols _ _ _ _ _⟩

/-- C4: in the region-filtering step, every pixel of a watershed region
whose eccentricity exceeds 0.6 is set to the background label 0, every
pixel of a region with eccentricity at most 0.6 keeps its label, and the
original `ws` is left unchanged (the loop mutates only `ws.copy()`, which
the pure embedding reflects).  The `regionprops` descriptors carry
distinct, nonzero labels. -/
theorem ws_updated_spec (regions : List RegionDesc) (ws : Grid ℤ)
    (h0 : ∀ r ∈ regions, r.label ≠ 0)
    (hnd : (regions.map RegionDesc.label).Nodup)
    (i j : ℕ) (r : RegionDesc) (hr : r ∈ regions)
    (hlab : ws.val i j = r.label) :
    (3 / 5 < r.eccentricity → (ws_updated regions ws).val i j = 0) ∧
    (r.eccentricity ≤ 3 / 5 →
      (ws_updated regions ws).val i j = ws.val i j) := by
  constructor
  · intro hecc
    exact ws_updated_kill r i j hecc regions ws h0 hr hlab
  · intro hecc
    refine ws_updated_keep i j regions ws ?_
    intro s hs he
    have hsr : s = r := List.inj_on_of_nodup_map hnd hs hr (by rw [he, hlab])
    rw [hsr]; exact hecc

theorem ws_updated_spec_witness :
    (3 / 5 < (⟨1, 7 / 10⟩ : RegionDesc).eccentricity →
      (ws_updated cRegions cWs).val 0 0 = 0) ∧
    ((⟨1, 7 / 10⟩ : RegionDesc).eccentricity ≤ 3 / 5 →
      (ws_updated cRegions cWs).val 0 0 = cWs.val 0 0) :=
  ws_updated_spec cRegions cWs (by decide) (by decide) 0 0 ⟨1, 7 / 10⟩
    (by simp [cRegions]) (by decide)

/-- C8: each re-run of the clustering cell overwrites the previous label
map with a result that is a function of the source image and the call's
parameters only: whatever label map was previously stored in the
notebook-global variable, the same image and parameters give the same
result. -/
theorem slicCell_ignores_previous (assign : SlicParams → Grid ℚ → ℕ → ℕ → ℤ)
    (params : SlicParams) (image : Grid ℚ) (prev1 prev2 : Grid ℤ) :
    slicCell assign params image prev1 = slicCell assign params image prev2 :=
  rfl

/-- The background pixels of the `non_edges` mask are exactly the pixels
whose Sobel response reaches the threshold. -/
theorem background_filter_eq (edges : Grid ℚ) (θ : ℚ) :
    ((non_edges edges θ).pixels.filter
        fun p => (non_edges edges θ).val p.1 p.2 = false) =
      boundaryPixels edges θ := by
  unfold boundaryPixels
  have hpix : (non_edges edges θ).pixels = edges.pixels := rfl
  rw [hpix]
  refine Finset.filter_congr ?_
  intro p _
  simp [non_edges, not_lt]

/-- C5: the distance map computed before seed finding assigns to every
pixel its Euclidean distance to the nearest boundary pixel, a boundary
pixel being one with Sobel response at least the threshold 0.4 (= 2/5):
the minimised squared distance of `distance_transform_edt(non_edges)`
ranges exactly over the pixels with response ≥ 0.4, the Euclidean square
root commutes with that minimisation, and the distance is 0 at every
boundary pixel. -/
theorem distance_from_edge_spec (edges : Grid ℚ) (i j : ℕ)
    (hi : i < edges.rows) (hj : j < edges.cols)
    (hne : (boundaryPixels edges (2 / 5)).Nonempty) :
    edtSq (non_edges edges (2 / 5)) i j =
      (((boundaryPixels edges (2 / 5)).inf' hne fun p => sqdist (i, j) p : ℕ) :
        WithTop ℕ) ∧
    Real.sqrt
        (((boundaryPixels edges (2 / 5)).inf' hne fun p => sqdist (i, j) p : ℕ) :
          ℝ) =
      (boundaryPixels edges (2 / 5)).inf' hne
        (fun p => Real.sqrt ((sqdist (i, j) p : ℕ) : ℝ)) ∧
    (2 / 5 ≤ edges.val i j → edtSq (non_edges edges (2 / 5)) i j = 0) := by
  have h1 : edtSq (non_edges edges (2 / 5)) i j =
      (boundaryPixels edges (2 / 5)).inf
        fun p => ((sqdist (i, j) p : ℕ) : WithTop ℕ) := by
    rw [edtSq, background_filter_eq]
  refine ⟨?_, ?_, ?_⟩
  · rw [h1]
    exact (Finset.coe_inf' hne _).symm
  · have gmono : Monotone (fun n : ℕ => Real.sqrt (n : ℝ)) := fun a b h =>
      Real.sqrt_le_sqrt (by exact_mod_cast h)
    have g_inf : ∀ x y : ℕ,
        Real.sqrt ((x ⊓ y : ℕ) : ℝ) = Real.sqrt (x : ℝ) ⊓ Real.sqrt (y : ℝ) := by
      intro x y
      exact gmono.map_min
    exact Finset.comp_inf'_eq_inf'_comp hne
      (fun n : ℕ => Real.sqrt (n : ℝ)) g_inf
  · intro hb
    rw [h1]
    have hmem : (i, j) ∈ boundaryPixels edges (2 / 5) := by
      simp [boundaryPixels, Grid.pixels, Finset.mem_product, hi, hj, hb]
    refine le_antisymm ?_ (zero_le _)
    have hle := Finset.inf_le (f := fun p => ((sqdist (i, j) p : ℕ) : WithTop ℕ))
      hmem
    simpa [sqdist] using hle

/-- The concrete Sobel response `cEdges` has a boundary pixel. -/
theorem cEdges_boundary_nonempty : (boundaryPixels cEdges (2 / 5)).Nonempty := by
  refine ⟨(0, 0), Finset.mem_filter.2 ⟨?_, ?_⟩⟩
  · simp [Grid.pixels, cEdges]
  · norm_num [cEdges]

theorem distance_from_edge_spec_witness :
    edtSq (non_edges cEdges (2 / 5)) 0 1 =
      (((boundaryPixels cEdges (2 / 5)).inf' cEdges_boundary_nonempty
          fun p => sqdist (0, 1) p : ℕ) : WithTop ℕ) ∧
    Real.sqrt
        (((boundaryPixels cEdges (2 / 5)).inf' cEdges_boundary_nonempty
            fun p => sqdist (0, 1) p : ℕ) : ℝ) =
      (boundaryPixels cEdges (2 / 5)).inf' cEdges_boundary_nonempty
        (fun p => Real.sqrt ((sqdist (0, 1) p : ℕ) : ℝ)) ∧
    (2 / 5 ≤ cEdges.val 0 1 → edtSq (non_edges cEdges (2 / 5)) 0 1 = 0) :=
  distance_from_edge_spec cEdges 0 1 (by decide) (by decide)
    cEdges_boundary_nonempty

/-- C6: the seeds passed to the flooding call mark exactly the pixels
reported as peaks: under the documented support property of `ndi.label`,
an in-bounds pixel has a nonzero seed label if and only if its coordinates
appear in the `peak_local_max` output scattered into `peaks_image`. -/
theorem seeds_iff_peaks (rows cols : ℕ) (peaks : List (ℕ × ℕ))
    (seeds : Grid ℤ) (h : ndiLabelSpec (peaksImage rows cols peaks) seeds)
    (i j : ℕ) (hi : i < rows) (hj : j < cols) :
    seeds.val i j ≠ 0 ↔ (i, j) ∈ peaks := by
  obtain ⟨-, -, hsupp⟩ := h
  have hm := hsupp i hi j hj
  simpa [peaksImage] using hm

theorem seeds_iff_peaks_witness :
    cSeeds.val 0 1 ≠ 0 ↔ ((0, 1) : ℕ × ℕ) ∈ [((0 : ℕ), (1 : ℕ))] :=
  seeds_iff_peaks 2 2 [(0, 1)] cSeeds (by decide) 0 1 (by decide) (by decide)

/-- C7: no operation in the notebook catches or recovers from a failure:
a bad file path or an out-of-range parameter becomes the library's error,
which the cell sequencing propagates to the top unchanged — no handler,
retry, or reporting step observes it. -/
theorem pipeline_errors_propagate (assign : SlicParams → Grid ℚ → ℕ → ℕ → ℤ)
    (fs : String → Option (Grid ℚ)) (params : SlicParams) :
    (fs spiceUrl = none →
      contrastPipeline assign fs params =
        Except.error ("cannot read " ++ spiceUrl)) ∧
    (∀ img, fs spiceUrl = some img → params.n_segments = 0 →
      contrastPipeline assign fs params =
        Except.error "n_segments out of range") := by
  constructor
  · intro h
    simp only [contrastPipeline, imreadModel, h]
    rfl
  · intro img h hp
    simp only [contrastPipeline, imreadModel, h, slicChecked, hp, if_pos]
    rfl

theorem pipeline_errors_propagate_witness :
    contrastPipeline cAssign (fun _ => none) cParams =
      Except.error ("cannot read " ++ spiceUrl) :=
  (pipeline_errors_propagate cAssign (fun _ => none) cParams).1 rfl

/-- Evaluation of the region-filtering loop on the concrete arrays: region
1 (eccentricity 0.7) is filtered, region 2 (eccentricity 0.5) is not. -/
theorem cWs_updated_eval : ws_updated cRegions cWs = zeroOutLabel cWs 1 := by
  have h1 : (3 : ℚ) / 5 < (7 : ℚ) / 10 := by norm_num
  have h2 : ¬ ((3 : ℚ) / 5 < (1 : ℚ) / 2) := by norm_num
  show ws_updated ((⟨1, 7 / 10⟩ : RegionDesc) :: [⟨2, 1 / 2⟩]) cWs = _
  rw [ws_updated_cons, if_pos h1, ws_updated_cons, if_neg h2]
  rfl

/-- The pixels of the concrete label map carrying label 5. -/
theorem cLab_labelPixels : labelPixels cLab 5 = {(0, 0), (0, 1)} := by decide

/-- The mean of the concrete image over label 5 is 2. -/
theorem cLab_labelMean : labelMean cImg cLab 5 = 2 := by
  have hcard : (({(0, 0), (0, 1)} : Finset (ℕ × ℕ))).card = 2 := by decide
  rw [labelMean, cLab_labelPixels, Finset.sum_pair (by decide), hcard]
  norm_num [cImg]

/-- `mean_color` on the concrete arrays replaces pixel (0,0) by its label's
mean value 2. -/
theorem mean_color_cImg_val : (mean_color id cImg cLab).val 0 0 = 2 := by
  have hin : ((0 : ℕ), (0 : ℕ)) ∈ cLab.pixels := by decide
  rw [mean_color, foldl_assignMean_val id cImg cLab _ _ 0 0 hin,
    if_pos (mem_uniqueLabels cLab 0 0 (by norm_num [cLab]) (by norm_num [cLab]))]
  show labelMean cImg cLab 5 = 2
  exact cLab_labelMean

/-- C1 is false as stated: the region-filtering step and the labeled-output
visualisation do perform computation implemented locally in the notebook.
The filtering loop (local Python, not a library call) changes the label
map, and the locally defined `mean_color` changes the pixel values —
neither step is a pass-through around a single opaque library call. -/
theorem local_computation_exists :
    (ws_updated cRegions cWs).val 0 0 ≠ cWs.val 0 0 ∧
    (mean_color id cImg cLab).val 0 0 ≠ cImg.val 0 0 := by
  constructor
  · rw [cWs_updated_eval]
    decide
  · rw [mean_color_cImg_val]
    norm_num [cImg]

/-- C1 amended: the heavy algorithms (clustering, edge detection, distance
transform, peak finding, flooding, region-descriptor computation) are
single opaque library calls, but the region-filtering step and the
mean-colour visualisation additionally run computation implemented locally
in the notebook: the filtering loop resets eccentric regions' pixels to
background, and `mean_color` replaces each pixel by its label's mean
value, as evaluated here on concrete arrays. -/
theorem local_computation_spec :
    (ws_updated cRegions cWs).val 0 0 = 0 ∧
    (ws_updated cRegions cWs).val 0 1 = cWs.val 0 1 ∧
    (mean_color id cImg cLab).val 0 0 = labelMean cImg cLab 5 := by
  refine ⟨?_, ?_, ?_⟩
  · rw [cWs_updated_eval]; decide
  · rw [cWs_updated_eval]; decide
  · rw [mean_color_cImg_val, cLab_labelMean]

/-- C9 is false as stated: the final `%load_style` cell reads the
stylesheet `../themes/tutorial.css`, a local file that is not an image, so
the notebook's external input/output is not limited to reading image files
and rendering plots inline. -/
theorem trace_reads_stylesheet :
    ¬ ∀ e ∈ notebookTrace, allowedByClaim e = true := by
  intro h
  have hcss := h (Effect.readFile "../themes/tutorial.css")
    (by simp [notebookTrace])
  have : allowedByClaim (Effect.readFile "../themes/tutorial.css") = false := by
    decide
  rw [this] at hcss
  exact Bool.false_ne_true hcss

/-- C9 amended: every external interaction of the notebook is a local file
read (image files and, in the final styling cell, a stylesheet) or inline
rendering (figures or printed text); at no step does it write a file, open
a network connection, or expose a command-line interface. -/
theorem trace_local_or_inline : ∀ e ∈ notebookTrace, localOrInline e = true := by
  decide

theorem trace_local_or_inline_witness :
    localOrInline (Effect.readFile "../images/spice_1.jpg") = true :=
  trace_local_or_inline (Effect.readFile "../images/spice_1.jpg")
    (by simp [notebookTrace])
